import Mathlib

/-!
Verification of the automail reconciliation engine.

The definitions below are a shallow embedding of the matching, reconciliation,
scheduling and fingerprinting logic of the repository
(`src/services/geminiService.ts` and `src/App.tsx`).  JavaScript strings are
modelled as Lean `String`s, timestamps as `Nat`, `null`/`undefined` as
`Option`.  Unicode NFD decomposition followed by combining-mark removal is
modelled by a per-character de-accent table over the Latin-1 range: any other
non-ASCII character is removed by the final character filter exactly as in the
source regex `[^a-zA-Z0-9 ]`.
-/

/-- JavaScript `String.prototype.toLowerCase`, modelled characterwise.  The
source only ever compares ASCII tokens, for which `Char.toLower` agrees with
the JavaScript function. -/
def jsToLower (s : String) : String :=
  String.mk (s.data.map Char.toLower)

/-- Model of NFD decomposition followed by removal of the combining marks
U+0300 to U+036F: each precomposed accented Latin letter loses its accent.
Characters outside this table are left unchanged (and any remaining non-ASCII
character is dropped by the later filter, as in the source). -/
def deaccent (c : Char) : Char :=
  match c with
  | 'á' | 'à' | 'â' | 'ã' | 'ä' | 'Á' | 'À' | 'Â' | 'Ã' | 'Ä' => 'a'
  | 'é' | 'è' | 'ê' | 'ë' | 'É' | 'È' | 'Ê' | 'Ë' => 'e'
  | 'í' | 'ì' | 'î' | 'ï' | 'Í' | 'Ì' | 'Î' | 'Ï' => 'i'
  | 'ó' | 'ò' | 'ô' | 'õ' | 'ö' | 'Ó' | 'Ò' | 'Ô' | 'Õ' | 'Ö' => 'o'
  | 'ú' | 'ù' | 'û' | 'ü' | 'Ú' | 'Ù' | 'Û' | 'Ü' => 'u'
  | 'ç' | 'Ç' => 'c'
  | 'ñ' | 'Ñ' => 'n'
  | _ => c

/-- The character class `[a-zA-Z0-9 ]` of the source's final `replace`. -/
def allowedChar (c : Char) : Bool :=
  ('a' ≤ c && c ≤ 'z') || ('A' ≤ c && c ≤ 'Z') || ('0' ≤ c && c ≤ '9') || c = ' '

/-- Contiguous-sublist test on character lists; `containsSub n h` holds iff
`n` occurs contiguously inside `h`.  This models JavaScript
`hay.includes(needle)`. -/
def containsSub (needle : List Char) : List Char → Bool
  | [] => needle.isEmpty
  | c :: t => needle.isPrefixOf (c :: t) || containsSub needle t

/-- JavaScript `hay.includes(needle)`. -/
def strContains (hay needle : String) : Bool :=
  containsSub needle.data hay.data

/-- JavaScript `String.prototype.trim`: strip whitespace from both ends. -/
def jsTrim (s : String) : String :=
  String.mk (((s.data.dropWhile Char.isWhitespace).reverse.dropWhile
    Char.isWhitespace).reverse)

/-- Model of the JavaScript expression `candidate || null` applied to the
result of `Array.prototype.find`: an absent candidate stays absent, and an
empty-string candidate is falsy, hence also collapses to `null`. -/
def jsOrNull (candidate : Option String) : Option String :=
  match candidate with
  | none => none
  | some s => if s = "" then none else some s

namespace GeminiService

/-- `normalizeText` from `src/services/geminiService.ts`:
lower-case, strip diacritics, then remove every character outside
`[a-zA-Z0-9 ]`. -/
def normalizeText (text : String) : String :=
  String.mk (((jsToLower text).data.map deaccent).filter allowedChar)

/-- The `normalizeText(x).trim()` combination used for all three inputs of
`findKeywordMatch`. -/
def cleanOf (s : String) : String :=
  jsTrim (normalizeText s)

/-- The local `isCaixa` of `findKeywordMatch`: the cleaned recipient name
contains both `"caixa"` and `"federal"`. -/
def isCaixaName (cleanName : String) : Bool :=
  strContains cleanName "caixa" && strContains cleanName "federal"

/-- The local `isCaixaSigla` of `findKeywordMatch`: the cleaned agency code is
exactly `"caixa"` or `"jamc"`. -/
def isCaixaSigla (cleanAgency : String) : Bool :=
  (cleanAgency == "caixa") || (cleanAgency == "jamc")

/-- The disjunction `isCaixa || isCaixaSigla` on which `findKeywordMatch`
selects the contract-variant (CAIXA) rule family. -/
def caixaSelected (recipientName agencyName : String) : Bool :=
  isCaixaName (cleanOf recipientName) || isCaixaSigla (cleanOf agencyName)

/-- The local `hasSpecificAgency` of `findKeywordMatch`:
`cleanAgency.length > 2 && cleanAgency !== 'geral'`. -/
def hasSpecificAgency (cleanAgency : String) : Bool :=
  decide (2 < cleanAgency.length) && !(cleanAgency == "geral")

/-- The per-file predicate of the `files.find(...)` call inside
`findKeywordMatch`, with the file-independent locals lifted to parameters. -/
def matchRule (cleanAgency cleanName cleanService : String)
    (fileName : String) : Bool :=
  let normFileName := normalizeText fileName
  if isCaixaName cleanName || isCaixaSigla cleanAgency then
    strContains normFileName "jamc" && strContains normFileName "7490" &&
      strContains normFileName "2025"
  else if hasSpecificAgency cleanAgency then
    if strContains cleanService "chamados" then
      strContains normFileName cleanAgency && strContains normFileName "chamados"
    else
      strContains normFileName cleanAgency && strContains normFileName cleanService
  else
    if strContains cleanService "chamados" then
      strContains normFileName cleanName && strContains normFileName "chamados"
    else
      strContains normFileName cleanName && strContains normFileName cleanService

/-- `findKeywordMatch` from `src/services/geminiService.ts`: the first file
satisfying `matchRule`, passed through the trailing `candidate || null`. -/
def findKeywordMatch (recipientName agencyName serviceName : String)
    (files : List String) : Option String :=
  jsOrNull (files.find?
    (matchRule (cleanOf agencyName) (cleanOf recipientName) (cleanOf serviceName)))

end GeminiService

namespace Spec

/-- Modelled from the spec wording of claim C1: the contract-variant family is
selected when the normalized recipient name contains both the institution
token and the qualifier token, or the agency code equals one of two fixed
codes. -/
def contractSelected (recipientName agencyCode : String) : Bool :=
  (strContains (GeminiService.cleanOf recipientName) "caixa" &&
    strContains (GeminiService.cleanOf recipientName) "federal") ||
  ((GeminiService.cleanOf agencyCode == "caixa") ||
    (GeminiService.cleanOf agencyCode == "jamc"))

/-- Modelled from the spec wording of claim C3: a candidate matches the
contract-variant rule iff its normalization contains the internal program
code, the numeric contract id, and the year, simultaneously. -/
def contractFileMatch (fileName : String) : Bool :=
  strContains (GeminiService.normalizeText fileName) "jamc" &&
  strContains (GeminiService.normalizeText fileName) "7490" &&
  strContains (GeminiService.normalizeText fileName) "2025"

/-- Modelled from the spec wording of claim C2: the token a general-rule
candidate must contain besides the service — the normalized agency code,
unless that code is empty, of length at most two, or the literal placeholder
`"geral"`, in which case the normalized recipient name. -/
def generalKey (recipientName agencyCode : String) : String :=
  if (GeminiService.cleanOf agencyCode == "") ||
      decide ((GeminiService.cleanOf agencyCode).length ≤ 2) ||
      (GeminiService.cleanOf agencyCode == "geral") then
    GeminiService.cleanOf recipientName
  else
    GeminiService.cleanOf agencyCode

/-- Modelled from the spec wording of claims C2 and C7 combined: a
general-rule candidate must contain the key of `generalKey` together with the
normalized service label — or only the generic tickets keyword when the
service label itself contains that keyword. -/
def generalFileMatch (recipientName agencyCode serviceName : String)
    (fileName : String) : Bool :=
  strContains (GeminiService.normalizeText fileName)
    (generalKey recipientName agencyCode) &&
  strContains (GeminiService.normalizeText fileName)
    (if strContains (GeminiService.cleanOf serviceName) "chamados" then
      "chamados"
    else GeminiService.cleanOf serviceName)

/-- Modelled from the spec wording of claim C7: when the service label denotes
the recurring-tickets service, a candidate matches as soon as it contains the
key together with the generic tickets keyword. -/
def chamadosFileMatch (recipientName agencyCode : String)
    (fileName : String) : Bool :=
  strContains (GeminiService.normalizeText fileName)
    (generalKey recipientName agencyCode) &&
  strContains (GeminiService.normalizeText fileName) "chamados"

end Spec

namespace App

/-- Recipient lifecycle states from `src/types.ts`. -/
inductive Status where
  | pending
  | file_found
  | ready
  | sent
deriving DecidableEq

/-- One `{ service, fileName, timestamp }` triple of `matchedFiles`
(`src/App.tsx`, `processMatches`). -/
structure MatchEntry where
  service : String
  fileName : String
  timestamp : Option Nat
deriving DecidableEq

/-- A scanned file: its name plus the last-modified timestamp the
reconciliation pass can retrieve for it (`none` models both an absent entry
and a failed retrieval, exactly the cases where `getFileTimestamp` yields
`undefined`). -/
structure FileEntry where
  name : String
  timestamp : Option Nat
deriving DecidableEq

/-- Runtime recipient record (`Recipient` of `src/types.ts`). -/
structure Recipient where
  id : String
  sigla : String
  name : String
  email : String
  services : List String
  notes : String
  status : Status
  matchedFiles : List MatchEntry
  missingServices : List String
  matchedTime : Option Nat
  emailSubject : Option String
  emailBody : Option String
  emailBodyHtml : Option String
  overrideTo : Option String
  overrideCc : Option String
deriving DecidableEq

/-- The reconciliation pass's own CAIXA test (`src/App.tsx` line 337):
`r.sigla.toLowerCase().includes('caixa') ||
 r.sigla.toLowerCase().includes('jamc') ||
 r.name.toLowerCase().includes('caixa')`. -/
def isCaixa (sigla name : String) : Bool :=
  strContains (jsToLower sigla) "caixa" || strContains (jsToLower sigla) "jamc" ||
    strContains (jsToLower name) "caixa"

/-- The `getFileTimestamp` helper of `processMatches`: look the file up by
name and retrieve its timestamp. -/
def getFileTimestamp (files : List FileEntry) (fileName : String) : Option Nat :=
  (files.find? (fun f => f.name == fileName)).bind (fun f => f.timestamp)

/-- Pseudo-service label pushed for a matched contract-variant recipient. -/
def caixaServiceLabel : String := "Relatório CAIXA (JAMC)"

/-- Missing-service label pushed for an unmatched contract-variant
recipient. -/
def caixaMissingLabel : String := "Relatório JAMC"

/-- The per-service loop of `processMatches`: evaluate every configured
service against the inventory, pushing matches and misses in service
order. -/
def evalServices (fileNames : List String) (files : List FileEntry)
    (name sigla : String) : List String → List MatchEntry × List String
  | [] => ([], [])
  | s :: rest =>
    let tail := evalServices fileNames files name sigla rest
    match GeminiService.findKeywordMatch name sigla s fileNames with
    | some f => (⟨s, f, getFileTimestamp files f⟩ :: tail.1, tail.2)
    | none => (tail.1, s :: tail.2)

/-- The matched/missing computation of `processMatches` for one recipient:
the contract-variant branch calls the matcher with an empty service string;
the general branch walks the configured services (an empty configuration
yields empty lists). -/
def computeMatch (files : List FileEntry) (name sigla : String)
    (services : List String) : List MatchEntry × List String :=
  if isCaixa sigla name then
    match GeminiService.findKeywordMatch name sigla "" (files.map FileEntry.name) with
    | some m => ([⟨caixaServiceLabel, m, getFileTimestamp files m⟩], [])
    | none => ([], [caixaMissingLabel])
  else
    evalServices (files.map FileEntry.name) files name sigla services

/-- `servicesConfigured && missingServices.length === 0 &&
matchedFiles.length > 0` from `processMatches`. -/
def allFoundCalc (sigla name : String) (services : List String)
    (mm : List MatchEntry × List String) : Bool :=
  (isCaixa sigla name || !services.isEmpty) && mm.2.isEmpty && !mm.1.isEmpty

/-- The status update of `processMatches`: full satisfaction promotes to
`file_found` (or keeps `ready`); anything else demotes to `pending`. -/
def newStatusFor (allFound : Bool) (st : Status) : Status :=
  if allFound then (if st = Status.ready then Status.ready else Status.file_found)
  else Status.pending

/-- The deep-compare-and-update tail of the per-recipient loop: if status,
matched files and missing services are all unchanged the record is left
alone, otherwise it is replaced (with `matchedTime` refreshed). -/
def reconcileCore (now : Nat) (r : Recipient)
    (mm : List MatchEntry × List String) : Recipient × Bool :=
  let aF := allFoundCalc r.sigla r.name r.services mm
  let ns := newStatusFor aF r.status
  if ns = r.status ∧ mm.1 = r.matchedFiles ∧ mm.2 = r.missingServices then
    (r, false)
  else
    ({ r with
        status := ns
        matchedFiles := mm.1
        missingServices := mm.2
        matchedTime := if aF then some now else none }, true)

/-- One iteration of the `processMatches` loop: recipients already `sent` are
skipped untouched. -/
def reconcileOne (files : List FileEntry) (now : Nat) (r : Recipient) :
    Recipient × Bool :=
  if r.status = Status.sent then (r, false)
  else reconcileCore now r (computeMatch files r.name r.sigla r.services)

/-- `processMatches` from `src/App.tsx`: the effect returns immediately on an
empty inventory or empty registry; otherwise every recipient is processed
independently and the batch is published only when some record changed (the
returned flag; when it is false the published list is the input list, which
the unchanged per-recipient results reproduce). -/
def processMatches (files : List FileEntry) (now : Nat)
    (recipients : List Recipient) : List Recipient × Bool :=
  if files.isEmpty || recipients.isEmpty then (recipients, false)
  else
    let results := recipients.map (reconcileOne files now)
    (results.map Prod.fst, results.any Prod.snd)

/-- `handleResetStatus` from `src/App.tsx`: the targeted recipient's status is
set back to `pending`; every other field and recipient is untouched. -/
def handleResetStatus (targetId : String) (recipients : List Recipient) :
    List Recipient :=
  recipients.map (fun r =>
    if r.id = targetId then { r with status := Status.pending } else r)

end App

namespace App

/-- `AutoScanMode` from `src/types.ts`. -/
inductive ScanMode where
  | disabled
  | interval
  | fixed
deriving DecidableEq

/-- `AutoScanConfig` from `src/types.ts`. -/
structure AutoScanConfig where
  mode : ScanMode
  intervalMinutes : Nat
deriving DecidableEq

/-- A wall-clock reading as the scheduler observes it through a `Date`:
the epoch milliseconds (`getTime`) together with the derived local hour
(`getHours`), minute (`getMinutes`) and day of month (`getDate`). -/
structure Clock where
  ms : Nat
  hour : Nat
  minute : Nat
  day : Nat
deriving DecidableEq

/-- The mutable scheduler context read by `checkAutoScan`: the busy flag
`isScanning`, the `lastAutoScanRef` milliseconds, and the `lastScanTime`
date (absent before any scan). -/
structure SchedState where
  isScanning : Bool
  lastAutoScan : Nat
  lastScanTime : Option Clock
deriving DecidableEq

/-- The `new Date(0)` fallback of `checkAutoScan`, read in UTC. -/
def epochClock : Clock := ⟨0, 0, 0, 1⟩

/-- The `lastRunDate` local of the fixed-mode branch: the last scan time or
the epoch. -/
def lastRunClock (st : SchedState) : Clock :=
  match st.lastScanTime with
  | some c => c
  | none => epochClock

/-- `checkAutoScan` from `src/App.tsx` (the 10-second heartbeat callback):
returns whether an automatic scan fires at the clock reading `now`.
Busy ticks and ticks within one minute of the previous automatic firing never
fire; interval mode compares the elapsed time against the configured spacing
(`diffMinutes >= intervalMinutes`, written here over milliseconds); fixed mode
fires inside the five-minute window after 08:00, 12:00 and 16:00 unless the
last scan already ran in that hour on that day of month. -/
def checkAutoScan (cfg : AutoScanConfig) (st : SchedState) (now : Clock) : Bool :=
  if st.isScanning then false
  else if now.ms - st.lastAutoScan < 60000 then false
  else
    match cfg.mode with
    | ScanMode.disabled => false
    | ScanMode.interval =>
      let lastRun := match st.lastScanTime with
        | some c => c.ms
        | none => 0
      decide (cfg.intervalMinutes * 60000 ≤ now.ms - lastRun)
    | ScanMode.fixed =>
      if (now.hour = 8 ∨ now.hour = 12 ∨ now.hour = 16) ∧ now.minute < 5 then
        decide ((lastRunClock st).hour ≠ now.hour ∨ (lastRunClock st).day ≠ now.day)
      else false

/-- One heartbeat tick: when `checkAutoScan` fires, `lastAutoScanRef` is set
to the tick's milliseconds and the triggered `scanDirectory` publishes the
tick time as the new last-scan time (the busy flag is back to `false` once
the scan completes); otherwise the state is untouched. -/
def schedStep (cfg : AutoScanConfig) (st : SchedState) (now : Clock) :
    Bool × SchedState :=
  if checkAutoScan cfg st now then (true, ⟨false, now.ms, some now⟩)
  else (false, st)

/-- `newFiles.map(f => f.name).sort().join('|')` from `scanDirectory`:
the directory fingerprint is the sorted filename list joined with `"|"`. -/
def joinBar : List String → String
  | [] => ""
  | [s] => s
  | s :: rest => s ++ "|" ++ joinBar rest

/-- The directory fingerprint of `scanDirectory`. -/
def fingerprint (names : List String) : String :=
  joinBar (List.insertionSort (fun a b : String => a ≤ b) names)

/-- The state `scanDirectory` manipulates: the cached signature
(`lastScanSignatureRef`), the published file inventory, and the last-scan
timestamp. -/
structure ScanState where
  lastSignature : String
  files : List FileEntry
  lastScanTime : Option Nat
deriving DecidableEq

/-- The cache control flow of `scanDirectory` from `src/App.tsx`: when the
fingerprint of the freshly enumerated files equals the cached signature, only
the last-scan timestamp is refreshed; otherwise the signature and the
published inventory are replaced as well. -/
def scanDirectory (newFiles : List FileEntry) (now : Nat) (st : ScanState) :
    ScanState :=
  let sig := fingerprint (newFiles.map FileEntry.name)
  if sig = st.lastSignature then { st with lastScanTime := some now }
  else { lastSignature := sig, files := newFiles, lastScanTime := some now }

end App

/-- A sample recipient in `sent` state, used by the C4 witness. -/
def sentSample : App.Recipient :=
  ⟨"1", "JFAL", "Justiça Federal de Alagoas", "jfal@x", ["Varonis"], "",
   App.Status.sent, [], ["Varonis"], none, some "subj", some "body",
   some "html", none, none⟩

/-- A sample unsatisfied recipient used by the C6 witness. -/
def pendingSample : App.Recipient :=
  ⟨"3", "JFAL", "Justiça Federal de Alagoas", "jfal@x", ["Varonis"], "",
   App.Status.pending, [], [], none, none, none, none, none, none⟩

/-- The record the reconciliation pass produces for `pendingSample` on the
witness inventory. -/
def foundSample : App.Recipient :=
  { pendingSample with
      status := App.Status.file_found
      matchedFiles := [⟨"Varonis", "relatorio_JFAL_Varonis_2024.pdf", some 7⟩]
      missingServices := []
      matchedTime := some 5 }

/-- The fixed-times configuration used in the C8 scenario. -/
def c8Cfg : App.AutoScanConfig := ⟨App.ScanMode.fixed, 30⟩

/-- C8 scenario start state: idle, no recent automatic firing, last scan the
previous day at 16:03. -/
def schedStart : App.SchedState := ⟨false, 0, some ⟨443000000, 16, 3, 14⟩⟩

/-- C8 scenario tick at 07:59. -/
def tick0759 : App.Clock := ⟨500000000, 7, 59, 15⟩

/-- C8 scenario tick at 08:02. -/
def tick0802a : App.Clock := ⟨500180000, 8, 2, 15⟩

/-- C8 scenario repeat tick at 08:02, ten seconds later. -/
def tick0802b : App.Clock := ⟨500190000, 8, 2, 15⟩

lemma containsSub_nil_needle (l : List Char) : containsSub [] l = true := by
  induction l with
  | nil => rfl
  | cons c t ih => simp [containsSub, List.isPrefixOf]

lemma strContains_needle_empty (s : String) : strContains s "" = true :=
  containsSub_nil_needle s.data

lemma strContains_empty_hay {needle : String} (h : needle.data ≠ []) :
    strContains "" needle = false := by
  cases hn : needle.data with
  | nil => exact absurd hn h
  | cons c t => simp [strContains, containsSub, hn]

lemma jsOrNull_find?_of_pred {p : String → Bool} (l : List String)
    (h : p "" = false) : jsOrNull (l.find? p) = l.find? p := by
  cases hf : l.find? p with
  | none => rfl
  | some a =>
    have ha := List.find?_some hf
    have hne : a ≠ "" := by
      intro he
      rw [he, h] at ha
      exact Bool.noConfusion ha
    simp [jsOrNull, hne]

lemma jsOrNull_find?_of_mem {p : String → Bool} (l : List String)
    (h : "" ∉ l) : jsOrNull (l.find? p) = l.find? p := by
  cases hf : l.find? p with
  | none => rfl
  | some a =>
    have ha := List.mem_of_find?_eq_some hf
    have hne : a ≠ "" := fun he => h (he ▸ ha)
    simp [jsOrNull, hne]

lemma matchRule_caixa (ca cn cs f : String)
    (h : (GeminiService.isCaixaName cn || GeminiService.isCaixaSigla ca) = true) :
    GeminiService.matchRule ca cn cs f = Spec.contractFileMatch f := by
  simp [GeminiService.matchRule, Spec.contractFileMatch, h]

lemma cleanOf_ne_nil_of_long {s : String}
    (h : GeminiService.hasSpecificAgency (GeminiService.cleanOf s) = true) :
    (GeminiService.cleanOf s).data ≠ [] := by
  intro hd
  unfold GeminiService.hasSpecificAgency at h
  rw [Bool.and_eq_true, decide_eq_true_eq] at h
  have : (GeminiService.cleanOf s).length = 0 := by
    simp [String.length, hd]
  omega

lemma matchRule_general (name agency svc f : String)
    (h : (GeminiService.isCaixaName (GeminiService.cleanOf name)
        || GeminiService.isCaixaSigla (GeminiService.cleanOf agency)) = false) :
    GeminiService.matchRule (GeminiService.cleanOf agency)
      (GeminiService.cleanOf name) (GeminiService.cleanOf svc) f
      = Spec.generalFileMatch name agency svc f := by
  unfold GeminiService.matchRule Spec.generalFileMatch Spec.generalKey
    GeminiService.hasSpecificAgency
  rw [h]
  by_cases hg : GeminiService.cleanOf agency = "geral"
  · by_cases hch : strContains (GeminiService.cleanOf svc) "chamados" = true
    · simp [hg, hch]
    · simp [hg, Bool.not_eq_true] at hch ⊢
      simp [hch]
  · by_cases hl : 2 < (GeminiService.cleanOf agency).length
    · have hne : GeminiService.cleanOf agency ≠ "" := by
        intro he
        rw [he] at hl
        simp [String.length] at hl
      by_cases hch : strContains (GeminiService.cleanOf svc) "chamados" = true
      · simp [hg, hl, hne, Nat.not_le.mpr hl, hch]
      · simp [Bool.not_eq_true] at hch
        simp [hg, hl, hne, Nat.not_le.mpr hl, hch]
    · have hle : (GeminiService.cleanOf agency).length ≤ 2 := Nat.not_lt.mp hl
      by_cases hch : strContains (GeminiService.cleanOf svc) "chamados" = true
      · simp [hg, hl, hle, hch]
      · simp [Bool.not_eq_true] at hch
        simp [hg, hl, hle, hch]

/-- C1 counterexample: the claim says the contract-variant family is selected
by the same condition wherever the program decides the rule family, but the
reconciliation pass's test disagrees with that condition on the recipient
named "Caixa Escolar" with agency code "CE": the pass classifies it as
contract-variant (and records the contract pseudo-service as missing) while
the claimed condition is false for it. -/
theorem c1_counterexample :
    App.isCaixa "CE" "Caixa Escolar" = true
    ∧ Spec.contractSelected "Caixa Escolar" "CE" = false
    ∧ App.computeMatch [⟨"CE_Varonis.pdf", none⟩] "Caixa Escolar" "CE" ["Varonis"]
        = ([], [App.caixaMissingLabel]) := by
  refine ⟨by decide, by decide, by decide⟩

/-- C1 amended: the match evaluator selects the contract-variant family
exactly under the claimed condition (normalized name contains both fixed
tokens, or normalized agency code equals one of the two fixed codes), but the
reconciliation pass uses a broader containment test — lowercased agency code
contains "caixa" or "jamc", or lowercased name contains "caixa" — and the two
selections disagree on some recipients. -/
theorem c1_selection :
    (∀ recipientName agencyName : String,
        GeminiService.caixaSelected recipientName agencyName
          = Spec.contractSelected recipientName agencyName)
    ∧ (App.isCaixa "CE" "Caixa Escolar" = true
        ∧ Spec.contractSelected "Caixa Escolar" "CE" = false) := by
  refine ⟨fun n a => rfl, by decide, by decide⟩

/-- C3: whenever the match evaluator selects the contract-variant family, the
returned file is the first one whose normalization contains all three fixed
literal tokens simultaneously, independently of the service argument — and no
file missing one of the tokens is ever returned, since `Spec.contractFileMatch`
is exactly the three-token conjunction. -/
theorem c3_contract_rule (recipientName agencyName serviceName : String)
    (files : List String)
    (h : GeminiService.caixaSelected recipientName agencyName = true) :
    GeminiService.findKeywordMatch recipientName agencyName serviceName files
      = files.find? Spec.contractFileMatch := by
  unfold GeminiService.caixaSelected at h
  unfold GeminiService.findKeywordMatch
  rw [funext (fun f => matchRule_caixa (GeminiService.cleanOf agencyName)
    (GeminiService.cleanOf recipientName) (GeminiService.cleanOf serviceName) f h)]
  exact jsOrNull_find?_of_pred files (by decide)

/-- Witness for C3 at a concrete contract-variant recipient and inventory. -/
theorem c3_witness :
    GeminiService.findKeywordMatch "Caixa Econômica Federal" "CAIXA" "Varonis"
      ["AAA.pdf", "Relatorio_JAMC_7490_2025.pdf"]
      = some "Relatorio_JAMC_7490_2025.pdf" := by
  rw [c3_contract_rule "Caixa Econômica Federal" "CAIXA" "Varonis"
    ["AAA.pdf", "Relatorio_JAMC_7490_2025.pdf"] (by decide)]
  decide

/-- C2 counterexample: the claim as stated requires the returned filename to
contain the full normalized service label, but for a service label containing
the generic tickets keyword the matcher accepts a file lacking that label;
and on an inventory containing an empty filename the matcher can return
`none` although a qualifying filename exists (the trailing `|| null` treats
the empty string as absent). -/
theorem c2_counterexample :
    (GeminiService.findKeywordMatch "Justiça Federal de Alagoas" "JFAL"
        "Relatório de Chamados" ["JFAL_Chamados_2024.pdf"]
        = some "JFAL_Chamados_2024.pdf"
      ∧ strContains (GeminiService.normalizeText "JFAL_Chamados_2024.pdf")
          (GeminiService.cleanOf "Relatório de Chamados") = false)
    ∧ (GeminiService.caixaSelected "?" "" = false
      ∧ Spec.generalFileMatch "?" "" "" "" = true
      ∧ GeminiService.findKeywordMatch "?" "" "" [""] = none) := by
  refine ⟨⟨by decide, by decide⟩, by decide, by decide, by decide⟩

/-- C2 amended: under the general rule family and for inventories without an
empty filename, `findKeywordMatch` returns the first filename in inventory
order satisfying the claimed containment rule — normalized agency code (or,
for a weak code, normalized recipient name) together with the normalized
service label, the latter relaxed to the generic tickets keyword when the
service label contains that keyword — and returns none exactly when no
filename qualifies. -/
theorem c2_general_rule (recipientName agencyName serviceName : String)
    (files : List String)
    (h1 : GeminiService.caixaSelected recipientName agencyName = false)
    (h2 : "" ∉ files) :
    GeminiService.findKeywordMatch recipientName agencyName serviceName files
      = files.find? (Spec.generalFileMatch recipientName agencyName serviceName)
    ∧ (GeminiService.findKeywordMatch recipientName agencyName serviceName files
        = none
      ↔ ∀ f ∈ files,
          Spec.generalFileMatch recipientName agencyName serviceName f = false) := by
  unfold GeminiService.caixaSelected at h1
  have heq : GeminiService.findKeywordMatch recipientName agencyName serviceName files
      = files.find? (Spec.generalFileMatch recipientName agencyName serviceName) := by
    unfold GeminiService.findKeywordMatch
    rw [funext (fun f => matchRule_general recipientName agencyName serviceName f h1)]
    exact jsOrNull_find?_of_mem files h2
  refine ⟨heq, ?_⟩
  rw [heq, List.find?_eq_none]
  simp

/-- Witness for C2 at the spec's own general-rule example. -/
theorem c2_witness :
    GeminiService.findKeywordMatch "Justiça Federal de Alagoas" "JFAL" "Varonis"
      ["relatorio_JFBR_Varonis_2024.pdf", "relatorio_JFAL_Varonis_2024.pdf"]
      = some "relatorio_JFAL_Varonis_2024.pdf" := by
  rw [(c2_general_rule "Justiça Federal de Alagoas" "JFAL" "Varonis"
    ["relatorio_JFBR_Varonis_2024.pdf", "relatorio_JFAL_Varonis_2024.pdf"]
    (by decide) (by decide)).1]
  decide

/-- C7: under the general rule family, when the normalized service label
contains the generic tickets keyword, a candidate matches as soon as its
normalization contains the agency code (or, on the weak-code fallback path,
the recipient name) together with that keyword; the full service label is not
required. -/
theorem c7_chamados_rule (recipientName agencyName serviceName : String)
    (files : List String)
    (h1 : GeminiService.caixaSelected recipientName agencyName = false)
    (h2 : strContains (GeminiService.cleanOf serviceName) "chamados" = true) :
    GeminiService.findKeywordMatch recipientName agencyName serviceName files
      = files.find? (Spec.chamadosFileMatch recipientName agencyName) := by
  unfold GeminiService.caixaSelected at h1
  unfold GeminiService.findKeywordMatch
  have hp : ∀ f, GeminiService.matchRule (GeminiService.cleanOf agencyName)
      (GeminiService.cleanOf recipientName) (GeminiService.cleanOf serviceName) f
      = Spec.chamadosFileMatch recipientName agencyName f := by
    intro f
    rw [matchRule_general recipientName agencyName serviceName f h1]
    unfold Spec.generalFileMatch Spec.chamadosFileMatch
    rw [h2]
    simp
  rw [funext hp]
  refine jsOrNull_find?_of_pred files ?_
  unfold Spec.chamadosFileMatch
  rw [show strContains (GeminiService.normalizeText "") "chamados" = false from by decide]
  exact Bool.and_false _

/-- Witness for C7: the service "Relatório de Chamados" matches a file
containing the agency code and the generic keyword but not the full label. -/
theorem c7_witness :
    GeminiService.findKeywordMatch "Justiça Federal de Alagoas" "JFAL"
      "Relatório de Chamados" ["relatorio_JFBR.pdf", "JFAL_chamados_jan.pdf"]
      = some "JFAL_chamados_jan.pdf" := by
  rw [c7_chamados_rule "Justiça Federal de Alagoas" "JFAL" "Relatório de Chamados"
    ["relatorio_JFBR.pdf", "JFAL_chamados_jan.pdf"] (by decide) (by decide)]
  decide

/-- C10: with an empty service name, a strong agency code and a recipient the
matcher does not classify as contract-variant, the service requirement
vanishes (the empty normalized service is a substring of every filename) and
`findKeywordMatch` returns the first filename containing the agency code
alone; and this is exactly the call the reconciliation pass makes when its
own CAIXA test classifies the recipient as contract-variant, so its match
result is then determined by agency-code containment alone, ignoring the
configured services. -/
theorem c10_empty_service (recipientName siglaName : String)
    (files : List String) (fs : List App.FileEntry) (services : List String)
    (h1 : GeminiService.caixaSelected recipientName siglaName = false)
    (h2 : GeminiService.hasSpecificAgency (GeminiService.cleanOf siglaName) = true) :
    GeminiService.findKeywordMatch recipientName siglaName "" files
      = files.find? (fun f => strContains (GeminiService.normalizeText f)
          (GeminiService.cleanOf siglaName))
    ∧ (App.isCaixa siglaName recipientName = true →
        App.computeMatch fs recipientName siglaName services
          = match (fs.map App.FileEntry.name).find? (fun f =>
                strContains (GeminiService.normalizeText f)
                  (GeminiService.cleanOf siglaName)) with
            | some m => ([⟨App.caixaServiceLabel, m, App.getFileTimestamp fs m⟩], [])
            | none => ([], [App.caixaMissingLabel])) := by
  unfold GeminiService.caixaSelected at h1
  have h2' := h2
  unfold GeminiService.hasSpecificAgency at h2'
  rw [Bool.and_eq_true, decide_eq_true_eq, Bool.not_eq_true', beq_eq_false_iff_ne] at h2'
  have hkey : Spec.generalKey recipientName siglaName
      = GeminiService.cleanOf siglaName := by
    unfold Spec.generalKey
    have hne : GeminiService.cleanOf siglaName ≠ "" := by
      intro he
      have := h2'.1
      rw [he] at this
      simp [String.length] at this
    simp [hne, h2'.2, Nat.not_le.mpr h2'.1]
  have hpred : ∀ f, Spec.generalFileMatch recipientName siglaName "" f
      = strContains (GeminiService.normalizeText f)
          (GeminiService.cleanOf siglaName) := by
    intro f
    unfold Spec.generalFileMatch
    rw [hkey]
    rw [show strContains (GeminiService.cleanOf "") "chamados" = false from by decide]
    rw [show GeminiService.cleanOf "" = "" from by decide]
    simp [strContains_needle_empty]
  have heq : ∀ fl : List String,
      GeminiService.findKeywordMatch recipientName siglaName "" fl
        = fl.find? (fun f => strContains (GeminiService.normalizeText f)
            (GeminiService.cleanOf siglaName)) := by
    intro fl
    unfold GeminiService.findKeywordMatch
    rw [funext (fun f => matchRule_general recipientName siglaName "" f h1)]
    rw [funext hpred]
    refine jsOrNull_find?_of_pred fl ?_
    rw [show GeminiService.normalizeText "" = "" from rfl]
    exact strContains_empty_hay (cleanOf_ne_nil_of_long h2)
  refine ⟨heq files, fun happ => ?_⟩
  unfold App.computeMatch
  rw [happ]
  rw [heq (fs.map App.FileEntry.name)]
  simp

/-- Witness for C10: a recipient named "Caixa Escolar" with agency code
"ESCX" — contract-variant for the reconciliation pass, general for the
matcher — gets a match chosen by agency-code containment alone. -/
theorem c10_witness :
    App.computeMatch [⟨"ESCX_Varonis.pdf", some 9⟩] "Caixa Escolar" "ESCX"
      ["Varonis", "Loqed"]
      = ([⟨App.caixaServiceLabel, "ESCX_Varonis.pdf", some 9⟩], []) := by
  rw [(c10_empty_service "Caixa Escolar" "ESCX" [] [⟨"ESCX_Varonis.pdf", some 9⟩]
    ["Varonis", "Loqed"] (by decide) (by decide)).2 (by decide)]
  decide

lemma newStatusFor_ne_sent (aF : Bool) (st : App.Status) :
    App.newStatusFor aF st ≠ App.Status.sent := by
  cases aF <;> cases st <;> simp [App.newStatusFor]

lemma newStatusFor_idem (aF : Bool) (st : App.Status) :
    App.newStatusFor aF (App.newStatusFor aF st) = App.newStatusFor aF st := by
  cases aF <;> cases st <;> rfl

lemma reconcileOne_spec (files : List App.FileEntry) (now : Nat)
    (r : App.Recipient) (hs : r.status ≠ App.Status.sent) :
    (App.reconcileOne files now r).1.status
        = App.newStatusFor (App.allFoundCalc r.sigla r.name r.services
            (App.computeMatch files r.name r.sigla r.services)) r.status
    ∧ (App.reconcileOne files now r).1.matchedFiles
        = (App.computeMatch files r.name r.sigla r.services).1
    ∧ (App.reconcileOne files now r).1.missingServices
        = (App.computeMatch files r.name r.sigla r.services).2
    ∧ (App.reconcileOne files now r).1.name = r.name
    ∧ (App.reconcileOne files now r).1.sigla = r.sigla
    ∧ (App.reconcileOne files now r).1.services = r.services := by
  simp only [App.reconcileOne, App.reconcileCore, if_neg hs]
  by_cases hch : App.newStatusFor (App.allFoundCalc r.sigla r.name r.services
        (App.computeMatch files r.name r.sigla r.services)) r.status = r.status
      ∧ (App.computeMatch files r.name r.sigla r.services).1 = r.matchedFiles
      ∧ (App.computeMatch files r.name r.sigla r.services).2 = r.missingServices
  · rw [if_pos hch]
    exact ⟨hch.1.symm, hch.2.1.symm, hch.2.2.symm, rfl, rfl, rfl⟩
  · rw [if_neg hch]
    exact ⟨rfl, rfl, rfl, rfl, rfl, rfl⟩

lemma reconcileOne_sent (files : List App.FileEntry) (now : Nat)
    (r : App.Recipient) (hs : r.status = App.Status.sent) :
    App.reconcileOne files now r = (r, false) := by
  unfold App.reconcileOne
  rw [if_pos hs]

lemma reconcileOne_idem (files : List App.FileEntry) (now1 now2 : Nat)
    (r : App.Recipient) :
    App.reconcileOne files now2 (App.reconcileOne files now1 r).1
      = ((App.reconcileOne files now1 r).1, false) := by
  by_cases hs : r.status = App.Status.sent
  · rw [reconcileOne_sent files now1 r hs]
    exact reconcileOne_sent files now2 r hs
  · obtain ⟨hst, hmf, hms, hname, hsig, hserv⟩ := reconcileOne_spec files now1 r hs
    have hs1 : (App.reconcileOne files now1 r).1.status ≠ App.Status.sent := by
      rw [hst]
      exact newStatusFor_ne_sent _ _
    set r1 := (App.reconcileOne files now1 r).1 with hr1
    unfold App.reconcileOne
    rw [if_neg hs1]
    unfold App.reconcileCore
    rw [hname, hsig, hserv, hst]
    rw [if_pos ⟨newStatusFor_idem _ _, hmf.symm ▸ rfl, hms.symm ▸ rfl⟩]

lemma anyMap_eq {A B : Type} (l : List A) (f : A → B) (p : B → Bool) :
    (l.map f).any p = l.any (fun a => p (f a)) := by
  induction l with
  | nil => rfl
  | cons a t ih => simp [ih]

lemma processMatches_eval (files : List App.FileEntry) (now : Nat)
    (rs : List App.Recipient) (hf : files.isEmpty = false)
    (hr : rs.isEmpty = false) :
    App.processMatches files now rs
      = (rs.map (fun r => (App.reconcileOne files now r).1),
         rs.any (fun r => (App.reconcileOne files now r).2)) := by
  unfold App.processMatches
  rw [hf, hr]
  simp [List.map_map, anyMap_eq, Function.comp]

/-- C4: a recipient whose status is `sent` is left wholly untouched by a
reconciliation pass over any file inventory (the loop skips it before
recomputing anything), and the operator reset is the transition that takes a
record back to `pending`, preserving every other field. -/
theorem c4_sent_frozen :
    (∀ (files : List App.FileEntry) (now : Nat) (rs : List App.Recipient)
        (i : Nat) (r : App.Recipient),
        rs[i]? = some r → r.status = App.Status.sent →
        ((App.processMatches files now rs).1)[i]? = some r)
    ∧ (∀ (rs : List App.Recipient) (i : Nat) (r : App.Recipient)
        (targetId : String),
        rs[i]? = some r →
        (App.handleResetStatus targetId rs)[i]?
          = some (if r.id = targetId then
              { r with status := App.Status.pending } else r)) := by
  constructor
  · intro files now rs i r hr hsent
    cases hf : files.isEmpty with
    | true => simp [App.processMatches, hf, hr]
    | false =>
      cases hrse : rs.isEmpty with
      | true =>
        rw [List.isEmpty_iff] at hrse
        subst hrse
        simp at hr
      | false =>
        rw [processMatches_eval files now rs hf hrse]
        simp only [List.getElem?_map, hr, Option.map_some']
        rw [reconcileOne_sent files now r hsent]
  · intro rs i r targetId hr
    unfold App.handleResetStatus
    simp [List.getElem?_map, hr]

/-- Witness for C4: a concrete `sent` recipient survives a reconciliation
pass untouched, and the reset sends it back to `pending`. -/
theorem c4_witness :
    ((App.processMatches [⟨"relatorio_JFAL_Varonis_2024.pdf", some 7⟩] 5
        [sentSample]).1)[0]? = some sentSample
    ∧ (App.handleResetStatus "1" [sentSample])[0]?
        = some (if sentSample.id = "1" then
            { sentSample with status := App.Status.pending } else sentSample) :=
  ⟨c4_sent_frozen.1 [⟨"relatorio_JFAL_Varonis_2024.pdf", some 7⟩] 5
      [sentSample] 0 sentSample rfl rfl,
   c4_sent_frozen.2 [sentSample] 0 sentSample "1" rfl⟩

/-- C5: reconciliation is idempotent — a second pass over the same file
inventory (identical names and timestamps) and the recipient list produced by
the first pass reproduces the same list and publishes no update (the changed
flag of the batch is false because the structural comparison short-circuits
every record). -/
theorem c5_reconciliation_idempotent (files : List App.FileEntry)
    (now1 now2 : Nat) (recipients : List App.Recipient) :
    App.processMatches files now2 ((App.processMatches files now1 recipients).1)
      = ((App.processMatches files now1 recipients).1, false) := by
  cases hf : files.isEmpty with
  | true => simp [App.processMatches, hf]
  | false =>
    cases hrs : recipients.isEmpty with
    | true =>
      rw [List.isEmpty_iff] at hrs
      subst hrs
      simp [App.processMatches]
    | false =>
      rw [processMatches_eval files now1 recipients hf hrs]
      have hr1 : (recipients.map
          (fun r => (App.reconcileOne files now1 r).1)).isEmpty = false := by
        cases recipients with
        | nil => simp at hrs
        | cons a t => simp
      rw [show ((recipients.map (fun r => (App.reconcileOne files now1 r).1),
          recipients.any (fun r => (App.reconcileOne files now1 r).2))).1
          = recipients.map (fun r => (App.reconcileOne files now1 r).1) from rfl]
      rw [processMatches_eval files now2 _ hf hr1]
      have helem : ∀ a ∈ recipients.map
          (fun r => (App.reconcileOne files now1 r).1),
          App.reconcileOne files now2 a = (a, false) := by
        intro a ha
        obtain ⟨r, hrmem, hra⟩ := List.mem_map.mp ha
        rw [← hra]
        exact reconcileOne_idem files now1 now2 r
      rw [Prod.mk.injEq]
      constructor
      · rw [List.map_congr_left (fun a ha => by
          show (App.reconcileOne files now2 a).1 = a
          rw [helem a ha] : ∀ a ∈
          recipients.map (fun r => (App.reconcileOne files now1 r).1),
          (fun x => (App.reconcileOne files now2 x).1) a = id a)]
        exact List.map_id _
      · rw [List.any_eq_false]
        intro x hx
        rw [helem x hx]
        simp

lemma evalServices_length (fileNames : List String) (files : List App.FileEntry)
    (name sigla : String) (l : List String) :
    (App.evalServices fileNames files name sigla l).1.length
      + (App.evalServices fileNames files name sigla l).2.length = l.length := by
  induction l with
  | nil => rfl
  | cons s rest ih =>
    simp only [App.evalServices]
    cases hm : GeminiService.findKeywordMatch name sigla s fileNames with
    | none =>
      simp only [List.length_cons]
      omega
    | some f =>
      simp only [List.length_cons]
      omega

lemma computeMatch_nonempty (files : List App.FileEntry) (name sigla : String)
    (services : List String)
    (hcfg : App.isCaixa sigla name = true ∨ services ≠ [])
    (hmiss : (App.computeMatch files name sigla services).2 = []) :
    (App.computeMatch files name sigla services).1 ≠ [] := by
  unfold App.computeMatch at hmiss ⊢
  by_cases hc : App.isCaixa sigla name = true
  · rw [if_pos hc] at hmiss ⊢
    cases hm : GeminiService.findKeywordMatch name sigla ""
        (files.map App.FileEntry.name) with
    | none =>
      rw [hm] at hmiss
      simp [App.caixaMissingLabel] at hmiss
    | some m => simp [hm]
  · rw [if_neg hc] at hmiss ⊢
    have hserv : services ≠ [] := hcfg.resolve_left hc
    have hlen := evalServices_length (files.map App.FileEntry.name) files
      name sigla services
    rw [hmiss] at hlen
    simp only [List.length_nil, Nat.add_zero] at hlen
    intro hnil
    rw [hnil] at hlen
    simp only [List.length_nil] at hlen
    exact hserv (List.length_eq_zero.mp hlen.symm)

lemma allFound_iff (sigla name : String) (services : List String)
    (mm : List App.MatchEntry × List String) :
    App.allFoundCalc sigla name services mm = true
      ↔ ((App.isCaixa sigla name = true ∨ services ≠ [])
          ∧ mm.2 = [] ∧ mm.1 ≠ []) := by
  unfold App.allFoundCalc
  simp [Bool.and_eq_true, Bool.or_eq_true, List.isEmpty_iff, Bool.not_eq_true',
    List.isEmpty_eq_false, and_assoc]

lemma newStatusFor_satisfied (aF : Bool) (st : App.Status) :
    (App.newStatusFor aF st = App.Status.file_found
      ∨ App.newStatusFor aF st = App.Status.ready) ↔ aF = true := by
  cases aF <;> cases st <;> simp [App.newStatusFor]

/-- C6: after a reconciliation pass over a nonempty inventory, a non-`sent`
recipient carries a satisfied status (`file_found`, or `ready` when it was
already `ready`) exactly when it is contract-variant for the pass or has at
least one configured service, and its recomputed missing-service list is
empty; in particular a non-contract-variant recipient with zero configured
services always comes out `pending`. -/
theorem c6_satisfaction (files : List App.FileEntry) (now : Nat)
    (rs : List App.Recipient) (i : Nat) (r rr : App.Recipient)
    (hr : rs[i]? = some r)
    (hrr : ((App.processMatches files now rs).1)[i]? = some rr)
    (hf : files.isEmpty = false)
    (hs : r.status ≠ App.Status.sent) :
    ((rr.status = App.Status.file_found ∨ rr.status = App.Status.ready)
      ↔ ((App.isCaixa r.sigla r.name = true ∨ r.services ≠ [])
          ∧ rr.missingServices = []))
    ∧ (App.isCaixa r.sigla r.name = false → r.services = [] →
        rr.status = App.Status.pending) := by
  have hrse : rs.isEmpty = false := by
    cases rs with
    | nil => simp at hr
    | cons a t => simp
  rw [processMatches_eval files now rs hf hrse] at hrr
  rw [List.getElem?_map, hr, Option.map_some'] at hrr
  have hrr' : rr = (App.reconcileOne files now r).1 := (Option.some.inj hrr).symm
  obtain ⟨hst, hmf, hms, -, -, -⟩ := reconcileOne_spec files now r hs
  rw [← hrr'] at hst hmf hms
  constructor
  · rw [hst, hms, newStatusFor_satisfied, allFound_iff]
    constructor
    · rintro ⟨hcfg, hm2, -⟩
      exact ⟨hcfg, hm2⟩
    · rintro ⟨hcfg, hm2⟩
      exact ⟨hcfg, hm2, computeMatch_nonempty files r.name r.sigla r.services hcfg hm2⟩
  · intro hnc hserv
    rw [hst]
    have : App.allFoundCalc r.sigla r.name r.services
        (App.computeMatch files r.name r.sigla r.services) = false := by
      unfold App.allFoundCalc
      rw [hnc, hserv]
      simp
    rw [this]
    rfl

/-- Witness for C6 at a concrete recipient that becomes fully satisfied. -/
theorem c6_witness :
    ((foundSample.status = App.Status.file_found
        ∨ foundSample.status = App.Status.ready)
      ↔ ((App.isCaixa pendingSample.sigla pendingSample.name = true
            ∨ pendingSample.services ≠ [])
          ∧ foundSample.missingServices = []))
    ∧ (App.isCaixa pendingSample.sigla pendingSample.name = false →
        pendingSample.services = [] →
        foundSample.status = App.Status.pending) :=
  c6_satisfaction [⟨"relatorio_JFAL_Varonis_2024.pdf", some 7⟩] 5
    [pendingSample] 0 pendingSample foundSample (by decide) (by decide)
    (by decide) (by decide)

/-- C8: in fixed mode a tick fires only at one of the three fixed hours,
only inside the first five minutes, and only when the last scan did not
already run in that hour on that day; no tick fires while a scan is in
flight, nor within one minute of the previous automatic firing; and on the
tick sequence 07:59, 08:02, 08:02 exactly the first 08:02 tick fires. -/
theorem c8_fixed_schedule :
    (∀ (cfg : App.AutoScanConfig) (st : App.SchedState) (now : App.Clock),
        cfg.mode = App.ScanMode.fixed → App.checkAutoScan cfg st now = true →
        ((now.hour = 8 ∨ now.hour = 12 ∨ now.hour = 16) ∧ now.minute < 5
          ∧ ¬((App.lastRunClock st).hour = now.hour
              ∧ (App.lastRunClock st).day = now.day)))
    ∧ (∀ (cfg : App.AutoScanConfig) (st : App.SchedState) (now : App.Clock),
        st.isScanning = true → App.checkAutoScan cfg st now = false)
    ∧ (∀ (cfg : App.AutoScanConfig) (st : App.SchedState) (now : App.Clock),
        now.ms - st.lastAutoScan < 60000 → App.checkAutoScan cfg st now = false)
    ∧ ((App.schedStep c8Cfg schedStart tick0759).1 = false
      ∧ (App.schedStep c8Cfg (App.schedStep c8Cfg schedStart tick0759).2
          tick0802a).1 = true
      ∧ (App.schedStep c8Cfg (App.schedStep c8Cfg
          (App.schedStep c8Cfg schedStart tick0759).2 tick0802a).2
          tick0802b).1 = false) := by
  refine ⟨?_, ?_, ?_, by decide, by decide, by decide⟩
  · intro cfg st now hmode hfire
    unfold App.checkAutoScan at hfire
    rw [hmode] at hfire
    by_cases hb : st.isScanning = true
    · rw [if_pos hb] at hfire
      exact Bool.noConfusion hfire
    · rw [if_neg hb] at hfire
      by_cases hm : now.ms - st.lastAutoScan < 60000
      · rw [if_pos hm] at hfire
        exact Bool.noConfusion hfire
      · rw [if_neg hm] at hfire
        by_cases hw : (now.hour = 8 ∨ now.hour = 12 ∨ now.hour = 16)
            ∧ now.minute < 5
        · rw [if_pos hw, decide_eq_true_eq] at hfire
          refine ⟨hw.1, hw.2, ?_⟩
          rintro ⟨h1, h2⟩
          rcases hfire with h | h
          · exact h h1
          · exact h h2
        · rw [if_neg hw] at hfire
          exact Bool.noConfusion hfire
  · intro cfg st now hb
    unfold App.checkAutoScan
    rw [if_pos hb]
  · intro cfg st now hm
    unfold App.checkAutoScan
    by_cases hb : st.isScanning = true
    · rw [if_pos hb]
    · rw [if_neg hb, if_pos hm]

/-- Witness for C8: the necessity and guard clauses applied at concrete
inputs. -/
theorem c8_witness :
    (¬((App.lastRunClock schedStart).hour = tick0802a.hour
        ∧ (App.lastRunClock schedStart).day = tick0802a.day))
    ∧ App.checkAutoScan c8Cfg ⟨true, 0, none⟩ tick0802a = false
    ∧ App.checkAutoScan c8Cfg ⟨false, 500170000, none⟩ tick0802a = false :=
  ⟨(c8_fixed_schedule.1 c8Cfg schedStart tick0802a rfl (by decide)).2.2,
   c8_fixed_schedule.2.1 c8Cfg ⟨true, 0, none⟩ tick0802a rfl,
   c8_fixed_schedule.2.2.1 c8Cfg ⟨false, 500170000, none⟩ tick0802a (by decide)⟩

lemma joinBar_length (l : List String) (h : l ≠ []) :
    (App.joinBar l).length = (l.map String.length).sum + (l.length - 1) := by
  induction l with
  | nil => exact absurd rfl h
  | cons s t ih =>
    cases t with
    | nil => simp [App.joinBar]
    | cons s2 t2 =>
      simp only [App.joinBar]
      rw [String.length_append, String.length_append, ih (by simp)]
      simp only [List.map_cons, List.sum_cons, List.length_cons]
      have hbar : ("|" : String).length = 1 := rfl
      rw [hbar]
      omega

lemma fingerprint_perm_eq (L M : List String) (h : L.Perm M) :
    App.fingerprint L = App.fingerprint M := by
  unfold App.fingerprint
  congr 1
  refine List.eq_of_perm_of_sorted ?_ (List.sorted_insertionSort _ _)
    (List.sorted_insertionSort _ _)
  exact (List.perm_insertionSort _ L).trans
    (h.trans (List.perm_insertionSort _ M).symm)

lemma fingerprint_length (l : List String) (h : l ≠ []) :
    (App.fingerprint l).length = (l.map String.length).sum + (l.length - 1) := by
  unfold App.fingerprint
  have hperm := List.perm_insertionSort (fun a b : String => a ≤ b) l
  have hne : List.insertionSort (fun a b : String => a ≤ b) l ≠ [] := by
    intro hnil
    rw [hnil] at hperm
    exact h hperm.symm.eq_nil
  rw [joinBar_length _ hne, hperm.length_eq]
  congr 1
  exact (hperm.map String.length).sum_eq

/-- C9 counterexample: the claim says adding any file always changes the
fingerprint, but adding a file with an empty name to the empty inventory
leaves the fingerprint (the empty string) unchanged. -/
theorem c9_counterexample :
    App.fingerprint [""] = App.fingerprint [] := by decide

/-- C9 amended: the fingerprint is invariant under every permutation of the
filename list; adding or removing a file with a nonempty name always changes
it (the empty-named file against the empty list being the sole collision);
and a scan whose fingerprint equals the cached one leaves the published
inventory and the cached signature unchanged, refreshing only the last-scan
timestamp. -/
theorem c9_fingerprint :
    (∀ L M : List String, L.Perm M → App.fingerprint L = App.fingerprint M)
    ∧ (∀ (L M : List String) (x : String), x ≠ "" → M.Perm (x :: L) →
        App.fingerprint M ≠ App.fingerprint L)
    ∧ (∀ (newFiles : List App.FileEntry) (now : Nat) (st : App.ScanState),
        App.fingerprint (newFiles.map App.FileEntry.name) = st.lastSignature →
        (App.scanDirectory newFiles now st).files = st.files
        ∧ (App.scanDirectory newFiles now st).lastSignature = st.lastSignature
        ∧ (App.scanDirectory newFiles now st).lastScanTime = some now) := by
  refine ⟨fingerprint_perm_eq, ?_, ?_⟩
  · intro L M x hx hperm
    rw [fingerprint_perm_eq M (x :: L) hperm]
    cases L with
    | nil =>
      intro he
      apply hx
      have h1 : App.fingerprint [x] = x := rfl
      rw [h1] at he
      exact he
    | cons y t =>
      intro he
      have hlen := congrArg String.length he
      rw [fingerprint_length (x :: y :: t) (by simp),
        fingerprint_length (y :: t) (by simp)] at hlen
      simp only [List.map_cons, List.sum_cons, List.length_cons] at hlen
      omega
  · intro newFiles now st h
    simp only [App.scanDirectory]
    rw [if_pos h]
    exact ⟨rfl, rfl, rfl⟩

/-- Witness for C9: permutation invariance, a nonempty-name insertion
changing the fingerprint, and the cached-signature no-op at concrete
inputs. -/
theorem c9_witness :
    App.fingerprint ["b", "a"] = App.fingerprint ["a", "b"]
    ∧ App.fingerprint ["b", "a"] ≠ App.fingerprint ["a"]
    ∧ ((App.scanDirectory [⟨"x", none⟩] 3 ⟨"x", [⟨"x", some 1⟩], none⟩).files
        = [⟨"x", some 1⟩]
      ∧ (App.scanDirectory [⟨"x", none⟩] 3 ⟨"x", [⟨"x", some 1⟩], none⟩).lastSignature
        = "x"
      ∧ (App.scanDirectory [⟨"x", none⟩] 3 ⟨"x", [⟨"x", some 1⟩], none⟩).lastScanTime
        = some 3) :=
  ⟨c9_fingerprint.1 ["b", "a"] ["a", "b"] (by decide),
   c9_fingerprint.2.1 ["a"] ["b", "a"] "b" (by decide) (by decide),
   c9_fingerprint.2.2 [⟨"x", none⟩] 3 ⟨"x", [⟨"x", some 1⟩], none⟩ (by decide)⟩
